import Mathlib

/-!
Shallow embedding of `gr-digital/lib/digital_constellation_receiver_cb.cc`
(decision-directed carrier recovery loop) and proofs about its loop state,
parameter setters, tracking update and stream driver.

Floating point values are modelled as real numbers.  Functions that throw
`std::out_of_range` are modelled as returning `Except String LoopState`;
an `Except.error` result means the exception propagated before any member
assignment executed (in the source every range check precedes the first
assignment, so the object keeps its pre-call state).
-/

/-- `#define M_TWOPI (2*M_PI)`. -/
noncomputable def M_TWOPI : ℝ := 2 * Real.pi

/-- The mutable members of `digital_constellation_receiver_cb` that the
loop reads and writes (the constellation pointer and current decision
point are held by the external oracle and not part of the loop state). -/
structure LoopState where
  d_freq : ℝ
  d_max_freq : ℝ
  d_min_freq : ℝ
  d_phase : ℝ
  d_loop_bw : ℝ
  d_damping : ℝ
  d_alpha : ℝ
  d_beta : ℝ

lemma twoPi_pos : 0 < M_TWOPI := by
  have h := Real.pi_pos
  unfold M_TWOPI
  linarith

/-- `while(d_phase > M_TWOPI) d_phase -= M_TWOPI;` -/
noncomputable def wrap_down (x : ℝ) : ℝ :=
  if h : M_TWOPI < x then wrap_down (x - M_TWOPI) else x
termination_by (⌈x / M_TWOPI⌉).toNat
decreasing_by
  have h2 : (0:ℝ) < M_TWOPI := twoPi_pos
  have hdiv : (x - M_TWOPI) / M_TWOPI = x / M_TWOPI - 1 := by
    rw [sub_div, div_self (ne_of_gt h2)]
  have hone : (1:ℝ) < x / M_TWOPI := (one_lt_div h2).mpr h
  have hceil : (1:ℤ) < ⌈x / M_TWOPI⌉ := by
    rw [Int.lt_ceil]
    exact_mod_cast hone
  have hsub : ⌈x / M_TWOPI - (1:ℤ)⌉ = ⌈x / M_TWOPI⌉ - 1 := Int.ceil_sub_int _ 1
  simp only [Int.cast_one] at hsub
  rw [hdiv, hsub]
  omega

/-- `while(d_phase < -M_TWOPI) d_phase += M_TWOPI;` -/
noncomputable def wrap_up (x : ℝ) : ℝ :=
  if h : x < -M_TWOPI then wrap_up (x + M_TWOPI) else x
termination_by (⌈(-x) / M_TWOPI⌉).toNat
decreasing_by
  have h2 : (0:ℝ) < M_TWOPI := twoPi_pos
  have hdiv : (-(x + M_TWOPI)) / M_TWOPI = (-x) / M_TWOPI - 1 := by
    rw [neg_add, add_div, neg_div M_TWOPI M_TWOPI, div_self (ne_of_gt h2)]
    ring
  have hone : (1:ℝ) < (-x) / M_TWOPI := by
    rw [one_lt_div h2]
    linarith
  have hceil : (1:ℤ) < ⌈(-x) / M_TWOPI⌉ := by
    rw [Int.lt_ceil]
    exact_mod_cast hone
  have hsub : ⌈(-x) / M_TWOPI - (1:ℤ)⌉ = ⌈(-x) / M_TWOPI⌉ - 1 := Int.ceil_sub_int _ 1
  simp only [Int.cast_one] at hsub
  rw [hdiv, hsub]
  omega

/-- `digital_constellation_receiver_cb::set_phase`: store the argument,
then run the two wrap loops. -/
noncomputable def set_phase (s : LoopState) (phase : ℝ) : LoopState :=
  { s with d_phase := wrap_up (wrap_down phase) }

/-- `digital_constellation_receiver_cb::set_frequency`. -/
noncomputable def set_frequency (s : LoopState) (freq : ℝ) : LoopState :=
  if freq > s.d_max_freq then { s with d_freq := s.d_min_freq }
  else if freq < s.d_min_freq then { s with d_freq := s.d_max_freq }
  else { s with d_freq := freq }

/-- `digital_constellation_receiver_cb::update_gains`. -/
noncomputable def update_gains (s : LoopState) : LoopState :=
  let denom := 1 + 2 * s.d_damping * s.d_loop_bw + s.d_loop_bw * s.d_loop_bw
  { s with
    d_alpha := 4 * s.d_damping * s.d_loop_bw / denom
    d_beta := 4 * s.d_loop_bw * s.d_loop_bw / denom }

/-- `digital_constellation_receiver_cb::set_loop_bandwidth`. -/
noncomputable def set_loop_bandwidth (s : LoopState) (bw : ℝ) : Except String LoopState :=
  if bw < 0 then
    Except.error "digital_constellation_receiver_cb: invalid bandwidth. Must be >= 0."
  else
    Except.ok (update_gains { s with d_loop_bw := bw })

/-- `digital_constellation_receiver_cb::set_damping_factor`. -/
noncomputable def set_damping_factor (s : LoopState) (df : ℝ) : Except String LoopState :=
  if df < 0 ∨ df > 1 then
    Except.error "digital_constellation_receiver_cb: invalid damping factor. Must be in [0,1]."
  else
    Except.ok (update_gains { s with d_damping := df })

/-- `digital_constellation_receiver_cb::set_alpha` (direct override, no
gain re-derivation). -/
noncomputable def set_alpha (s : LoopState) (alpha : ℝ) : Except String LoopState :=
  if alpha < 0 ∨ alpha > 1 then
    Except.error "digital_constellation_receiver_cb: invalid alpha. Must be in [0,1]."
  else
    Except.ok { s with d_alpha := alpha }

/-- `digital_constellation_receiver_cb::set_beta` (direct override, no
gain re-derivation). -/
noncomputable def set_beta (s : LoopState) (beta : ℝ) : Except String LoopState :=
  if beta < 0 ∨ beta > 1 then
    Except.error "digital_constellation_receiver_cb: invalid beta. Must be in [0,1]."
  else
    Except.ok { s with d_beta := beta }

/-- Modelled from the spec: `gr_branchless_clip` comes from `gr_math.h`,
which is not under `src/`.  The spec states that the tracking step
"Clamp[s] `frequency` symmetrically to within [−max_freq, max_freq]
(branchless range clip on magnitude, preserving sign)". -/
noncomputable def gr_branchless_clip (x clip_val : ℝ) : ℝ :=
  max (-clip_val) (min clip_val x)

/-- `digital_constellation_receiver_cb::phase_error_tracking`, statement
by statement: frequency integrator update, phase update using the already
updated frequency, the two phase wrap loops, then the frequency clip. -/
noncomputable def phase_error_tracking (s : LoopState) (phase_error : ℝ) : LoopState :=
  let f1 := s.d_freq + s.d_beta * phase_error
  let p1 := s.d_phase + f1 + s.d_alpha * phase_error
  let p2 := wrap_up (wrap_down p1)
  let f2 := gr_branchless_clip f1 s.d_max_freq
  { s with d_freq := f2, d_phase := p2 }

/-- The post-call member state of a setter call on an object in state `s`:
on `Except.ok` the new state, on `Except.error` the throw happened before
any member assignment, so the object still holds `s`. -/
def appliedState (s : LoopState) (r : Except String LoopState) : LoopState :=
  match r with
  | Except.ok s2 => s2
  | Except.error _ => s

/-- `r` models a call that threw `std::out_of_range`. -/
def raises (r : Except String LoopState) : Prop :=
  ∃ msg, r = Except.error msg

/-- Modelled from the spec: `gr_expj` comes from `gr_expj.h`, which is
not under `src/`.  The spec's stream-driver pseudo-code states
`derotated = input[i] * exp(-j * phase)` ("conjugate-rotate sample by
current phase estimate"), so the NCO value multiplied onto the sample is
`exp(-j * phase)`. -/
noncomputable def gr_expj (phase : ℝ) : ℂ :=
  Complex.exp (-(Complex.I * phase))

/-- Everything one `general_work` invocation returns to the host: the
return value (samples produced), the samples consumed (`consume_each(i)`
with the same `i`), the symbol output stream, the three diagnostic
streams (left empty when only one output channel is wired), and the loop
state. -/
structure WorkResult where
  produced : ℕ
  consumed : ℕ
  out : List ℕ
  out_err : List ℝ
  out_phase : List ℝ
  out_freq : List ℝ
  state : LoopState

/-- The `while((i < noutput_items) && (i < ninput_items[0]))` loop of
`general_work`, statement by statement.  `decision_maker_pe` is the
external constellation oracle (`decision_maker_pe(&sample, &phase_error)`
modelled as returning the symbol index and the phase error); `nout4`
models `output_items.size() == 4`, the diagnostics-wired case. -/
noncomputable def general_work_loop (decision_maker_pe : ℂ → ℕ × ℝ)
    (input : ℕ → ℂ) (noutput_items ninput_items0 : ℕ) (nout4 : Bool)
    (i : ℕ) (s : LoopState) (out : List ℕ)
    (out_err out_phase out_freq : List ℝ) : WorkResult :=
  if h : i < noutput_items ∧ i < ninput_items0 then
    let sample := input i
    let nco := gr_expj s.d_phase
    let sample2 := nco * sample
    let dec := decision_maker_pe sample2
    let sym_value := dec.1
    let phase_error := dec.2
    let s2 := phase_error_tracking s phase_error
    general_work_loop decision_maker_pe input noutput_items ninput_items0 nout4
      (i + 1) s2 (out ++ [sym_value])
      (if nout4 then out_err ++ [phase_error] else out_err)
      (if nout4 then out_phase ++ [s2.d_phase] else out_phase)
      (if nout4 then out_freq ++ [s2.d_freq] else out_freq)
  else
    { produced := i, consumed := i, out := out, out_err := out_err,
      out_phase := out_phase, out_freq := out_freq, state := s }
termination_by noutput_items - i
decreasing_by
  have h1 := h.1
  omega

/-- `digital_constellation_receiver_cb::general_work`: run the sample
loop from `i = 0` with empty output streams, then `consume_each(i)` and
return `i`. -/
noncomputable def general_work (decision_maker_pe : ℂ → ℕ × ℝ)
    (input : ℕ → ℂ) (noutput_items ninput_items0 : ℕ) (nout4 : Bool)
    (s : LoopState) : WorkResult :=
  general_work_loop decision_maker_pe input noutput_items ninput_items0 nout4
    0 s [] [] [] []

/-- The stream-driver loop exactly as the spec's pseudo-code writes it,
with the de-rotation spelled `derotated = input[i] * exp(-j * phase)`;
kept separate so the source loop's NCO multiplication can be compared
against the spec's words. -/
noncomputable def general_work_loop_specform (decision_maker_pe : ℂ → ℕ × ℝ)
    (input : ℕ → ℂ) (noutput_items ninput_items0 : ℕ) (nout4 : Bool)
    (i : ℕ) (s : LoopState) (out : List ℕ)
    (out_err out_phase out_freq : List ℝ) : WorkResult :=
  if h : i < noutput_items ∧ i < ninput_items0 then
    let derotated := input i * Complex.exp (-(Complex.I * s.d_phase))
    let dec := decision_maker_pe derotated
    let sym_value := dec.1
    let phase_error := dec.2
    let s2 := phase_error_tracking s phase_error
    general_work_loop_specform decision_maker_pe input noutput_items ninput_items0 nout4
      (i + 1) s2 (out ++ [sym_value])
      (if nout4 then out_err ++ [phase_error] else out_err)
      (if nout4 then out_phase ++ [s2.d_phase] else out_phase)
      (if nout4 then out_freq ++ [s2.d_freq] else out_freq)
  else
    { produced := i, consumed := i, out := out, out_err := out_err,
      out_phase := out_phase, out_freq := out_freq, state := s }
termination_by noutput_items - i
decreasing_by
  have h1 := h.1
  omega

/-- `general_work` in the spec's formulation (same driver, de-rotation
written as multiplication by `exp(-j * phase)` on the right). -/
noncomputable def general_work_specform (decision_maker_pe : ℂ → ℕ × ℝ)
    (input : ℕ → ℂ) (noutput_items ninput_items0 : ℕ) (nout4 : Bool)
    (s : LoopState) : WorkResult :=
  general_work_loop_specform decision_maker_pe input noutput_items ninput_items0 nout4
    0 s [] [] [] []

/-- The public constructor: member initializers, the dimensionality
check, the critically damped default damping factor `sqrt(2)/2`, then
`set_loop_bandwidth` (which derives the gains or throws).  `d_loop_bw`,
`d_alpha` and `d_beta` are uninitialized in the source until
`set_loop_bandwidth` runs; they get placeholder value 0 here, and a
successful `set_loop_bandwidth` overwrites all three. -/
noncomputable def digital_constellation_receiver_cb (dimensionality : ℕ)
    (loop_bw fmin fmax : ℝ) : Except String LoopState :=
  if dimensionality ≠ 1 then
    Except.error "This receiver only works with constellations of dimension 1."
  else
    set_loop_bandwidth
      { d_freq := 0, d_max_freq := fmax, d_min_freq := fmin, d_phase := 0,
        d_loop_bw := 0, d_damping := Real.sqrt 2 / 2, d_alpha := 0, d_beta := 0 }
      loop_bw

/-- A concrete loop state used to instantiate the theorems below. -/
noncomputable def testState : LoopState :=
  { d_freq := 0, d_max_freq := 1, d_min_freq := -1, d_phase := 0,
    d_loop_bw := 1, d_damping := 0, d_alpha := 0, d_beta := 0 }

lemma wrap_down_le (x : ℝ) : wrap_down x ≤ M_TWOPI := by
  induction x using wrap_down.induct with
  | case1 x hx ih =>
    rw [wrap_down, dif_pos hx]
    exact ih
  | case2 x hx =>
    rw [wrap_down, dif_neg hx]
    exact le_of_not_lt hx

lemma wrap_up_ge (x : ℝ) : -M_TWOPI ≤ wrap_up x := by
  induction x using wrap_up.induct with
  | case1 x hx ih =>
    rw [wrap_up, dif_pos hx]
    exact ih
  | case2 x hx =>
    rw [wrap_up, dif_neg hx]
    exact le_of_not_lt hx

lemma wrap_up_le (x : ℝ) : x ≤ M_TWOPI → wrap_up x ≤ M_TWOPI := by
  induction x using wrap_up.induct with
  | case1 x hx ih =>
    intro _
    rw [wrap_up, dif_pos hx]
    refine ih ?_
    have h2 := twoPi_pos
    linarith
  | case2 x hx =>
    intro hle
    rw [wrap_up, dif_neg hx]
    exact hle

lemma wrap_phase_mem (x : ℝ) :
    wrap_up (wrap_down x) ∈ Set.Icc (-M_TWOPI) M_TWOPI :=
  ⟨wrap_up_ge _, wrap_up_le _ (wrap_down_le x)⟩

lemma wrap_down_of_le {x : ℝ} (h : x ≤ M_TWOPI) : wrap_down x = x := by
  rw [wrap_down, dif_neg (not_lt.mpr h)]

lemma wrap_up_of_ge {x : ℝ} (h : -M_TWOPI ≤ x) : wrap_up x = x := by
  rw [wrap_up, dif_neg (not_lt.mpr h)]

/-- C2 counterexample: `set_phase(-2π)` stores the value `-2π` exactly
(neither wrap loop fires on it), and `-2π` is not in the half-open
interval `(-2π, 2π]`. -/
theorem set_phase_neg_twopi_cex :
    (set_phase testState (-M_TWOPI)).d_phase = -M_TWOPI ∧
    (set_phase testState (-M_TWOPI)).d_phase ∉ Set.Ioc (-M_TWOPI) M_TWOPI := by
  have h2 := twoPi_pos
  have hd : wrap_down (-M_TWOPI) = -M_TWOPI := wrap_down_of_le (by linarith)
  have hu : wrap_up (-M_TWOPI) = -M_TWOPI := wrap_up_of_ge le_rfl
  have hval : (set_phase testState (-M_TWOPI)).d_phase = -M_TWOPI := by
    simp [set_phase, hd, hu]
  refine ⟨hval, ?_⟩
  rw [hval]
  simp [Set.mem_Ioc]

/-- C2 (amended): for every real input `p`, after `set_phase(p)` the
stored phase lies in the closed interval `[-2π, 2π]`, and after every
`phase_error_tracking` call the stored phase also lies in `[-2π, 2π]`;
the endpoint `-2π` itself can be stored (see the counterexample). -/
theorem phase_wrap_invariant (s : LoopState) (p e : ℝ) :
    (set_phase s p).d_phase ∈ Set.Icc (-M_TWOPI) M_TWOPI ∧
    (phase_error_tracking s e).d_phase ∈ Set.Icc (-M_TWOPI) M_TWOPI :=
  ⟨wrap_phase_mem p, wrap_phase_mem _⟩

/-- C3: with the configured bounds ordered (`min_freq ≤ max_freq`, the
spec's construction precondition), `set_frequency(f)` stores `min_freq`
when `f > max_freq`, stores `max_freq` when `f < min_freq`, stores `f`
itself when `min_freq ≤ f ≤ max_freq`, never raises (it is a total
function into `LoopState`), and in each case changes only `d_freq`. -/
theorem set_frequency_cases (s : LoopState) (h : s.d_min_freq ≤ s.d_max_freq)
    (freq : ℝ) :
    (s.d_max_freq < freq →
      set_frequency s freq = { s with d_freq := s.d_min_freq }) ∧
    (freq < s.d_min_freq →
      set_frequency s freq = { s with d_freq := s.d_max_freq }) ∧
    (s.d_min_freq ≤ freq → freq ≤ s.d_max_freq →
      set_frequency s freq = { s with d_freq := freq }) := by
  refine ⟨?_, ?_, ?_⟩
  · intro hgt
    rw [set_frequency, if_pos hgt]
  · intro hlt
    rw [set_frequency, if_neg (not_lt.mpr (by linarith)), if_pos hlt]
  · intro h1 h2
    rw [set_frequency, if_neg (not_lt.mpr h2), if_neg (not_lt.mpr h1)]

theorem set_frequency_cases_witness :
    testState.d_min_freq ≤ testState.d_max_freq ∧
    set_frequency testState 2 = { testState with d_freq := testState.d_min_freq } ∧
    set_frequency testState (-2) = { testState with d_freq := testState.d_max_freq } ∧
    set_frequency testState (1/2) = { testState with d_freq := (1/2 : ℝ) } := by
  have hmm : testState.d_min_freq ≤ testState.d_max_freq := by norm_num [testState]
  refine ⟨hmm, ?_, ?_, ?_⟩
  · exact (set_frequency_cases testState hmm 2).1 (by norm_num [testState])
  · exact (set_frequency_cases testState hmm (-2)).2.1 (by norm_num [testState])
  · exact (set_frequency_cases testState hmm (1/2)).2.2 (by norm_num [testState])
      (by norm_num [testState])

/-- C5: one `phase_error_tracking(e)` call first adds `beta * e` to the
frequency, then adds the already-updated frequency plus `alpha * e` to
the phase, then wraps the phase through the two wrap loops, then clips
the updated frequency against `max_freq`; expanding the updated
frequency shows the `beta * e` increment also enters the phase sum. -/
theorem phase_error_tracking_step (s : LoopState) (e : ℝ) :
    phase_error_tracking s e =
      { s with
        d_freq := gr_branchless_clip (s.d_freq + s.d_beta * e) s.d_max_freq,
        d_phase := wrap_up (wrap_down
          (s.d_phase + (s.d_freq + s.d_beta * e) + s.d_alpha * e)) } ∧
    (phase_error_tracking s e).d_phase =
      wrap_up (wrap_down
        (s.d_phase + s.d_freq + s.d_beta * e + s.d_alpha * e)) := by
  constructor
  · rfl
  · have harg : s.d_phase + (s.d_freq + s.d_beta * e) + s.d_alpha * e
        = s.d_phase + s.d_freq + s.d_beta * e + s.d_alpha * e := by ring
    show wrap_up (wrap_down
        (s.d_phase + (s.d_freq + s.d_beta * e) + s.d_alpha * e)) = _
    rw [harg]

/-- C6: when `max_freq ≥ 0`, after any `phase_error_tracking` call the
stored frequency satisfies `|frequency| ≤ max_freq`, for every phase
error and every prior state; and the result does not depend on
`min_freq` at all. -/
theorem track_freq_bound (s : LoopState) (e : ℝ) (h : 0 ≤ s.d_max_freq) :
    |(phase_error_tracking s e).d_freq| ≤ s.d_max_freq ∧
    ∀ m, (phase_error_tracking { s with d_min_freq := m } e).d_freq
        = (phase_error_tracking s e).d_freq := by
  constructor
  · show |max (-s.d_max_freq) (min s.d_max_freq (s.d_freq + s.d_beta * e))|
        ≤ s.d_max_freq
    rw [abs_le]
    exact ⟨le_max_left _ _, max_le (by linarith) (min_le_left _ _)⟩
  · intro m
    rfl

theorem track_freq_bound_witness :
    (0:ℝ) ≤ testState.d_max_freq ∧
    |(phase_error_tracking testState 5).d_freq| ≤ testState.d_max_freq ∧
    (phase_error_tracking { testState with d_min_freq := 7 } 5).d_freq
      = (phase_error_tracking testState 5).d_freq := by
  have h : (0:ℝ) ≤ testState.d_max_freq := by norm_num [testState]
  exact ⟨h, (track_freq_bound testState 5 h).1, (track_freq_bound testState 5 h).2 7⟩

/-- C7: each of the four validated setters raises the out-of-range error
exactly when its argument violates its range (`bw < 0`; damping, alpha,
beta outside `[0,1]`), and on a raise the object's member state is the
pre-call state (every range check precedes the first assignment in the
source). -/
theorem setters_validate_and_preserve (s : LoopState) (bw df a b : ℝ) :
    (raises (set_loop_bandwidth s bw) ↔ bw < 0) ∧
    (bw < 0 → appliedState s (set_loop_bandwidth s bw) = s) ∧
    (raises (set_damping_factor s df) ↔ (df < 0 ∨ df > 1)) ∧
    ((df < 0 ∨ df > 1) → appliedState s (set_damping_factor s df) = s) ∧
    (raises (set_alpha s a) ↔ (a < 0 ∨ a > 1)) ∧
    ((a < 0 ∨ a > 1) → appliedState s (set_alpha s a) = s) ∧
    (raises (set_beta s b) ↔ (b < 0 ∨ b > 1)) ∧
    ((b < 0 ∨ b > 1) → appliedState s (set_beta s b) = s) := by
  refine ⟨?_, ?_, ?_, ?_, ?_, ?_, ?_, ?_⟩
  · by_cases hbw : bw < 0 <;> simp [set_loop_bandwidth, raises, hbw]
  · intro hbw
    simp [set_loop_bandwidth, appliedState, hbw]
  · by_cases hdf : df < 0 ∨ df > 1 <;> simp [set_damping_factor, raises, hdf]
  · intro hdf
    simp [set_damping_factor, appliedState, hdf]
  · by_cases ha : a < 0 ∨ a > 1 <;> simp [set_alpha, raises, ha]
  · intro ha
    simp [set_alpha, appliedState, ha]
  · by_cases hb : b < 0 ∨ b > 1 <;> simp [set_beta, raises, hb]
  · intro hb
    simp [set_beta, appliedState, hb]

theorem setters_validate_witness :
    raises (set_loop_bandwidth testState (-1)) ∧
    appliedState testState (set_loop_bandwidth testState (-1)) = testState ∧
    raises (set_damping_factor testState (3/2)) ∧
    appliedState testState (set_damping_factor testState (3/2)) = testState ∧
    raises (set_alpha testState (-1/10)) ∧
    appliedState testState (set_alpha testState (-1/10)) = testState ∧
    raises (set_beta testState 2) ∧
    appliedState testState (set_beta testState 2) = testState := by
  have T := setters_validate_and_preserve testState (-1) (3/2) (-1/10) 2
  exact ⟨T.1.mpr (by norm_num), T.2.1 (by norm_num),
    T.2.2.1.mpr (by norm_num), T.2.2.2.1 (by norm_num),
    T.2.2.2.2.1.mpr (by norm_num), T.2.2.2.2.2.1 (by norm_num),
    T.2.2.2.2.2.2.1.mpr (by norm_num), T.2.2.2.2.2.2.2 (by norm_num)⟩

lemma gain_div_bounds (d b : ℝ) (hd0 : 0 ≤ d) (hd1 : d ≤ 1) (hb : 0 ≤ b) :
    1 ≤ 1 + 2 * d * b + b * b ∧
    0 ≤ 4 * d * b / (1 + 2 * d * b + b * b) ∧
    4 * d * b / (1 + 2 * d * b + b * b) ≤ 1 ∧
    0 ≤ 4 * b * b / (1 + 2 * d * b + b * b) ∧
    4 * b * b / (1 + 2 * d * b + b * b) ≤ 4 := by
  have hden : (1:ℝ) ≤ 1 + 2 * d * b + b * b := by nlinarith
  have hdenpos : (0:ℝ) < 1 + 2 * d * b + b * b := by linarith
  refine ⟨hden, ?_, ?_, ?_, ?_⟩
  · exact div_nonneg (by nlinarith) hdenpos.le
  · rw [div_le_one hdenpos]
    nlinarith [sq_nonneg (1 - b), mul_nonneg hb (sub_nonneg.mpr hd1)]
  · exact div_nonneg (by nlinarith) hdenpos.le
  · rw [div_le_iff₀ hdenpos]
    nlinarith

/-- C8: `update_gains` computes `denom = 1 + 2*damping*bw + bw*bw`,
`alpha = 4*damping*bw / denom`, `beta = 4*bw*bw / denom`; and for
damping in `[0,1]` and bandwidth `≥ 0`, `denom ≥ 1` and the resulting
alpha and beta each lie in `[0, 4]`. -/
theorem update_gains_formula (s : LoopState) (hd0 : 0 ≤ s.d_damping)
    (hd1 : s.d_damping ≤ 1) (hb : 0 ≤ s.d_loop_bw) :
    (update_gains s).d_alpha
        = 4 * s.d_damping * s.d_loop_bw
          / (1 + 2 * s.d_damping * s.d_loop_bw + s.d_loop_bw * s.d_loop_bw) ∧
    (update_gains s).d_beta
        = 4 * s.d_loop_bw * s.d_loop_bw
          / (1 + 2 * s.d_damping * s.d_loop_bw + s.d_loop_bw * s.d_loop_bw) ∧
    1 ≤ 1 + 2 * s.d_damping * s.d_loop_bw + s.d_loop_bw * s.d_loop_bw ∧
    (0 ≤ (update_gains s).d_alpha ∧ (update_gains s).d_alpha ≤ 4) ∧
    (0 ≤ (update_gains s).d_beta ∧ (update_gains s).d_beta ≤ 4) := by
  obtain ⟨h1, h2, h3, h4, h5⟩ :=
    gain_div_bounds s.d_damping s.d_loop_bw hd0 hd1 hb
  exact ⟨rfl, rfl, h1, ⟨h2, le_trans h3 (by norm_num)⟩, ⟨h4, h5⟩⟩

theorem update_gains_formula_witness :
    (0 ≤ testState.d_damping ∧ testState.d_damping ≤ 1 ∧
      0 ≤ testState.d_loop_bw) ∧
    1 ≤ 1 + 2 * testState.d_damping * testState.d_loop_bw
        + testState.d_loop_bw * testState.d_loop_bw ∧
    (0 ≤ (update_gains testState).d_beta ∧
      (update_gains testState).d_beta ≤ 4) := by
  have T := update_gains_formula testState (by norm_num [testState])
    (by norm_num [testState]) (by norm_num [testState])
  exact ⟨⟨by norm_num [testState], by norm_num [testState],
    by norm_num [testState]⟩, T.2.2.1, T.2.2.2.2⟩

/-- C4 counterexample: with stored damping `0` (accepted by
`set_damping_factor`) a successful `set_loop_bandwidth(1)` derives
`beta = 4*1*1 / (1 + 0 + 1) = 2`, which is outside `[0,1]`. -/
theorem update_gains_beta_cex :
    set_loop_bandwidth { testState with d_damping := 0 } 1
      = Except.ok (update_gains { testState with d_damping := 0, d_loop_bw := 1 }) ∧
    (update_gains { testState with d_damping := 0, d_loop_bw := 1 }).d_beta = 2 ∧
    ¬ ((update_gains { testState with d_damping := 0, d_loop_bw := 1 }).d_beta ≤ 1) := by
  refine ⟨?_, ?_, ?_⟩
  · rw [set_loop_bandwidth, if_neg (by norm_num)]
  · norm_num [update_gains, testState]
  · norm_num [update_gains, testState]

/-- C4 (amended): whenever alpha and beta are derived by `update_gains`
through a successful `set_loop_bandwidth` (argument `≥ 0`) or a
successful `set_damping_factor` (argument in `[0,1]`), on a state whose
other stored tunable is in its own valid range, the derived alpha lies
in `[0,1]` and the derived beta lies in `[0,4]` (beta can genuinely
exceed 1, see the counterexample). -/
theorem derived_gains_bounds (s : LoopState) (bw df : ℝ)
    (hd0 : 0 ≤ s.d_damping) (hd1 : s.d_damping ≤ 1) (hb : 0 ≤ s.d_loop_bw)
    (hbw : 0 ≤ bw) (hdf0 : 0 ≤ df) (hdf1 : df ≤ 1) :
    (∀ s2, set_loop_bandwidth s bw = Except.ok s2 →
      (0 ≤ s2.d_alpha ∧ s2.d_alpha ≤ 1) ∧ (0 ≤ s2.d_beta ∧ s2.d_beta ≤ 4)) ∧
    (∀ s2, set_damping_factor s df = Except.ok s2 →
      (0 ≤ s2.d_alpha ∧ s2.d_alpha ≤ 1) ∧ (0 ≤ s2.d_beta ∧ s2.d_beta ≤ 4)) := by
  constructor
  · intro s2 hs2
    rw [set_loop_bandwidth, if_neg (not_lt.mpr hbw)] at hs2
    obtain ⟨h1, h2, h3, h4, h5⟩ := gain_div_bounds s.d_damping bw hd0 hd1 hbw
    rw [← Except.ok.inj hs2]
    exact ⟨⟨h2, h3⟩, ⟨h4, h5⟩⟩
  · intro s2 hs2
    rw [set_damping_factor, if_neg (by push_neg; exact ⟨hdf0, hdf1⟩)] at hs2
    obtain ⟨h1, h2, h3, h4, h5⟩ := gain_div_bounds df s.d_loop_bw hdf0 hdf1 hb
    rw [← Except.ok.inj hs2]
    exact ⟨⟨h2, h3⟩, ⟨h4, h5⟩⟩

theorem derived_gains_bounds_witness :
    (0 ≤ (update_gains { testState with d_loop_bw := 1 }).d_alpha ∧
      (update_gains { testState with d_loop_bw := 1 }).d_alpha ≤ 1) ∧
    (0 ≤ (update_gains { testState with d_loop_bw := 1 }).d_beta ∧
      (update_gains { testState with d_loop_bw := 1 }).d_beta ≤ 4) := by
  have T := derived_gains_bounds testState 1 (1/2) (by norm_num [testState])
    (by norm_num [testState]) (by norm_num [testState]) (by norm_num)
    (by norm_num) (by norm_num)
  exact T.1 (update_gains { testState with d_loop_bw := 1 })
    (by rw [set_loop_bandwidth, if_neg (by norm_num)])

/-- C10: constructing with a dimensionality-1 constellation but a
negative `loop_bw` fails with the out-of-range bandwidth error
propagated from `set_loop_bandwidth`, which the constructor calls to
derive the initial gains; this message is distinct from the fatal
dimensionality configuration error, and no `LoopState` results. -/
theorem ctor_negative_bw_raises (loop_bw fmin fmax : ℝ) (h : loop_bw < 0) :
    digital_constellation_receiver_cb 1 loop_bw fmin fmax
      = Except.error
          "digital_constellation_receiver_cb: invalid bandwidth. Must be >= 0." ∧
    "digital_constellation_receiver_cb: invalid bandwidth. Must be >= 0."
      ≠ "This receiver only works with constellations of dimension 1." := by
  constructor
  · rw [digital_constellation_receiver_cb, if_neg (by norm_num),
      set_loop_bandwidth, if_pos h]
  · decide

theorem ctor_negative_bw_raises_witness :
    (-1 : ℝ) < 0 ∧
    digital_constellation_receiver_cb 1 (-1) 0 0
      = Except.error
          "digital_constellation_receiver_cb: invalid bandwidth. Must be >= 0." :=
  ⟨by norm_num, (ctor_negative_bw_raises (-1) 0 0 (by norm_num)).1⟩

lemma general_work_loop_exit (o : ℂ → ℕ × ℝ) (inp : ℕ → ℂ)
    (nout nin : ℕ) (f : Bool) (i : ℕ) (s : LoopState) (out : List ℕ)
    (oe op og : List ℝ) (h : ¬ (i < nout ∧ i < nin)) :
    general_work_loop o inp nout nin f i s out oe op og
      = { produced := i, consumed := i, out := out, out_err := oe,
          out_phase := op, out_freq := og, state := s } := by
  rw [general_work_loop, dif_neg h]

lemma general_work_loop_step (o : ℂ → ℕ × ℝ) (inp : ℕ → ℂ)
    (nout nin : ℕ) (f : Bool) (i : ℕ) (s : LoopState) (out : List ℕ)
    (oe op og : List ℝ) (h : i < nout ∧ i < nin) :
    general_work_loop o inp nout nin f i s out oe op og
      = general_work_loop o inp nout nin f (i + 1)
          (phase_error_tracking s (o (gr_expj s.d_phase * inp i)).2)
          (out ++ [(o (gr_expj s.d_phase * inp i)).1])
          (if f then oe ++ [(o (gr_expj s.d_phase * inp i)).2] else oe)
          (if f then op ++ [(phase_error_tracking s
              (o (gr_expj s.d_phase * inp i)).2).d_phase] else op)
          (if f then og ++ [(phase_error_tracking s
              (o (gr_expj s.d_phase * inp i)).2).d_freq] else og) := by
  conv_lhs => rw [general_work_loop]
  rw [dif_pos h]

lemma general_work_loop_specform_exit (o : ℂ → ℕ × ℝ) (inp : ℕ → ℂ)
    (nout nin : ℕ) (f : Bool) (i : ℕ) (s : LoopState) (out : List ℕ)
    (oe op og : List ℝ) (h : ¬ (i < nout ∧ i < nin)) :
    general_work_loop_specform o inp nout nin f i s out oe op og
      = { produced := i, consumed := i, out := out, out_err := oe,
          out_phase := op, out_freq := og, state := s } := by
  rw [general_work_loop_specform, dif_neg h]

lemma general_work_loop_specform_step (o : ℂ → ℕ × ℝ) (inp : ℕ → ℂ)
    (nout nin : ℕ) (f : Bool) (i : ℕ) (s : LoopState) (out : List ℕ)
    (oe op og : List ℝ) (h : i < nout ∧ i < nin) :
    general_work_loop_specform o inp nout nin f i s out oe op og
      = general_work_loop_specform o inp nout nin f (i + 1)
          (phase_error_tracking s
            (o (inp i * Complex.exp (-(Complex.I * s.d_phase)))).2)
          (out ++ [(o (inp i * Complex.exp (-(Complex.I * s.d_phase)))).1])
          (if f then oe ++ [(o (inp i * Complex.exp
              (-(Complex.I * s.d_phase)))).2] else oe)
          (if f then op ++ [(phase_error_tracking s (o (inp i * Complex.exp
              (-(Complex.I * s.d_phase)))).2).d_phase] else op)
          (if f then og ++ [(phase_error_tracking s (o (inp i * Complex.exp
              (-(Complex.I * s.d_phase)))).2).d_freq] else og) := by
  conv_lhs => rw [general_work_loop_specform]
  rw [dif_pos h]

lemma gr_expj_mul_comm (θ : ℝ) (z : ℂ) :
    gr_expj θ * z = z * Complex.exp (-(Complex.I * θ)) := by
  rw [gr_expj, mul_comm]

lemma general_work_loop_eq_specform (o : ℂ → ℕ × ℝ) (inp : ℕ → ℂ)
    (nout nin : ℕ) (f : Bool) :
    ∀ i s out oe op og,
      general_work_loop o inp nout nin f i s out oe op og
        = general_work_loop_specform o inp nout nin f i s out oe op og := by
  suffices H : ∀ n i s out oe op og, nout - i ≤ n →
      general_work_loop o inp nout nin f i s out oe op og
        = general_work_loop_specform o inp nout nin f i s out oe op og by
    intro i s out oe op og
    exact H (nout - i) i s out oe op og le_rfl
  intro n
  induction n with
  | zero =>
    intro i s out oe op og hle
    have hguard : ¬ (i < nout ∧ i < nin) := by omega
    rw [general_work_loop_exit o inp nout nin f i s out oe op og hguard,
      general_work_loop_specform_exit o inp nout nin f i s out oe op og hguard]
  | succ n ih =>
    intro i s out oe op og hle
    by_cases hguard : i < nout ∧ i < nin
    · rw [general_work_loop_step o inp nout nin f i s out oe op og hguard,
        general_work_loop_specform_step o inp nout nin f i s out oe op og hguard,
        gr_expj_mul_comm]
      exact ih (i + 1) _ _ _ _ _ (by omega)
    · rw [general_work_loop_exit o inp nout nin f i s out oe op og hguard,
        general_work_loop_specform_exit o inp nout nin f i s out oe op og hguard]

/-- C1: the source stream driver, whose loop body multiplies each input
sample by the NCO value for the current phase estimate before handing it
to the constellation oracle's decision function, coincides with the
spec-form driver whose loop body hands the oracle
`input[i] * exp(-j * phase)`, the conjugate rotation by the current
phase estimate. -/
theorem general_work_derotates (o : ℂ → ℕ × ℝ) (inp : ℕ → ℂ)
    (nout nin : ℕ) (f : Bool) (s : LoopState) :
    general_work o inp nout nin f s = general_work_specform o inp nout nin f s := by
  rw [general_work, general_work_specform]
  exact general_work_loop_eq_specform o inp nout nin f 0 s [] [] [] []

lemma general_work_loop_counts (o : ℂ → ℕ × ℝ) (inp : ℕ → ℂ)
    (nout nin : ℕ) (f : Bool) :
    ∀ i s out oe op og,
      (general_work_loop o inp nout nin f i s out oe op og).produced
          = max i (min nout nin) ∧
      (general_work_loop o inp nout nin f i s out oe op og).consumed
          = max i (min nout nin) ∧
      (general_work_loop o inp nout nin f i s out oe op og).out.length
          = out.length + (max i (min nout nin) - i) := by
  suffices H : ∀ n i s out oe op og, nout - i ≤ n →
      (general_work_loop o inp nout nin f i s out oe op og).produced
          = max i (min nout nin) ∧
      (general_work_loop o inp nout nin f i s out oe op og).consumed
          = max i (min nout nin) ∧
      (general_work_loop o inp nout nin f i s out oe op og).out.length
          = out.length + (max i (min nout nin) - i) by
    intro i s out oe op og
    exact H (nout - i) i s out oe op og le_rfl
  intro n
  induction n with
  | zero =>
    intro i s out oe op og hle
    have hguard : ¬ (i < nout ∧ i < nin) := by omega
    rw [general_work_loop_exit o inp nout nin f i s out oe op og hguard]
    have hmax : max i (min nout nin) = i := by omega
    simp [hmax]
  | succ n ih =>
    intro i s out oe op og hle
    by_cases hguard : i < nout ∧ i < nin
    · rw [general_work_loop_step o inp nout nin f i s out oe op og hguard]
      obtain ⟨ha, hb, hc⟩ := ih (i + 1)
        (phase_error_tracking s (o (gr_expj s.d_phase * inp i)).2)
        (out ++ [(o (gr_expj s.d_phase * inp i)).1])
        (if f then oe ++ [(o (gr_expj s.d_phase * inp i)).2] else oe)
        (if f then op ++ [(phase_error_tracking s
            (o (gr_expj s.d_phase * inp i)).2).d_phase] else op)
        (if f then og ++ [(phase_error_tracking s
            (o (gr_expj s.d_phase * inp i)).2).d_freq] else og)
        (by omega)
      refine ⟨?_, ?_, ?_⟩
      · rw [ha]
        omega
      · rw [hb]
        omega
      · rw [hc]
        simp only [List.length_append, List.length_singleton]
        omega
    · rw [general_work_loop_exit o inp nout nin f i s out oe op og hguard]
      have hmax : max i (min nout nin) = i := by omega
      simp [hmax]

/-- C9: one `general_work` invocation with `noutput_items` output slots
and `ninput_items[0]` input samples produces, consumes and emits exactly
`min` of the two budgets; with either budget zero it is a no-op that
returns 0, emits nothing and leaves the loop state unchanged. -/
theorem general_work_batch (o : ℂ → ℕ × ℝ) (inp : ℕ → ℂ)
    (nout nin : ℕ) (f : Bool) (s : LoopState) :
    (general_work o inp nout nin f s).produced = min nout nin ∧
    (general_work o inp nout nin f s).consumed = min nout nin ∧
    (general_work o inp nout nin f s).out.length = min nout nin ∧
    general_work o inp 0 nin f s
      = { produced := 0, consumed := 0, out := [], out_err := [],
          out_phase := [], out_freq := [], state := s } ∧
    general_work o inp nout 0 f s
      = { produced := 0, consumed := 0, out := [], out_err := [],
          out_phase := [], out_freq := [], state := s } := by
  obtain ⟨ha, hb, hc⟩ := general_work_loop_counts o inp nout nin f 0 s [] [] [] []
  refine ⟨?_, ?_, ?_, ?_, ?_⟩
  · rw [general_work, ha]
    omega
  · rw [general_work, hb]
    omega
  · rw [general_work, hc]
    simp
  · rw [general_work]
    exact general_work_loop_exit o inp 0 nin f 0 s [] [] [] [] (by omega)
  · rw [general_work]
    exact general_work_loop_exit o inp nout 0 f 0 s [] [] [] [] (by omega)
